import Mathlib

/-!
Shallow embedding of OpenSeadragon's data-type convertor
(src/src/datatypeconvertor.js): the `WeightedGraph` class
(`addVertex`, `addEdge`, `dijkstra`) and the `DataTypeConvertor` class
(`learn`, `learnDestroy`, `getConversionPath`, `convert`, `destroy`,
`guessType`).

The priority queue used by `dijkstra` lives in another file of the
repository (OpenSeadragon.PriorityQueue) that is not part of the sources
here; it is modelled from the specification: an indexed binary min-heap
whose `remove` yields a node of minimal key, and whose `decreaseKey`
lowers the key of a queued node or inserts the node when it is not
currently queued (spec section 4.1 and section 4.2 step 4).  Likewise
the helper `$.type` is modelled from the specification.

JavaScript details carried over faithfully:
  - object property tables become association lists; assigning a fresh
    key appends it (JS insertion order), assigning an existing key
    overwrites in place;
  - reading a property of a missing key yields `undefined`, modelled as
    `Option.none`; storing `undefined` under a key is indistinguishable
    from the key being absent on every later read, which the lookup
    helpers reproduce;
  - the numeric literal expression `10 ^ 5` in `learn` is JavaScript
    bitwise XOR (value 15), and `costPower * 10 ^ 5 + costMultiplier`
    parses as `(costPower * 10) ^ (5 + costMultiplier)` because `*` and
    `+` bind tighter than `^`; the embedding computes exactly that;
  - transform callbacks are opaque functions `V → V` over a value type
    `V` together with a truthiness test `falsy : V → Bool` standing for
    JavaScript's falsiness check `!y`.
-/

namespace OSDConvertor

/-- Lookup in a JS-style string-keyed property table (first match). -/
def alookup {α : Type} : List (String × α) → String → Option α
  | [], _ => none
  | (k, v) :: rest, key => if k = key then some v else alookup rest key

/-- Property assignment on a JS object: overwrite in place when the key
exists, append at the end (JS insertion order) when it is fresh. -/
def assocSet {α : Type} : List (String × α) → String → α → List (String × α)
  | [], k, v => [(k, v)]
  | (k', v') :: rest, k, v =>
      if k' = k then (k, v) :: rest else (k', v') :: assocSet rest k v

/-- A `$.PriorityQueue.Node` as stored persistently in the graph: its
identity (allocation counter, capturing JS object identity) and its
`value`, the type identifier.  The mutable search fields (`key`,
`_previous`, heap index) are reset at the start of every dijkstra run,
so they live in the per-search state `DState` below instead. -/
structure PNode where
  id : Nat
  value : String
deriving Repr, DecidableEq

/-- One conversion edge as pushed by `WeightedGraph.addEdge`:
`{ target, origin, weight, transform }`. -/
structure Edge (V : Type) where
  target : PNode
  origin : PNode
  weight : Nat
  transform : V → V

/-- The `WeightedGraph`: `adjacencyList` and `vertices` property tables
plus the allocation counter for node identities. -/
structure Graph (V : Type) where
  vertices : List (String × PNode)
  adjacencyList : List (String × List (Edge V))
  nextId : Nat

def emptyGraph (V : Type) : Graph V := ⟨[], [], 0⟩

/-- `WeightedGraph.addVertex`: create a fresh node and empty adjacency
list when the identifier is unseen; never replaces an existing node.
Returns the graph and the JS boolean result. -/
def addVertex {V : Type} (g : Graph V) (v : String) : Graph V × Bool :=
  match alookup g.vertices v with
  | some _ => (g, false)
  | none =>
      ({ vertices := assocSet g.vertices v ⟨g.nextId, v⟩,
         adjacencyList := assocSet g.adjacencyList v [],
         nextId := g.nextId + 1 }, true)

/-- `WeightedGraph.addEdge`: push one edge onto the origin's adjacency
list, with `origin`/`target` being the shared nodes from `vertices`.
When either endpoint or the adjacency list is missing the JS code would
fault on property access; `learn` always adds both vertices first, so
that corner is modelled as a no-op. -/
def addEdge {V : Type} (g : Graph V) (a b : String) (w : Nat) (tr : V → V) : Graph V :=
  match alookup g.vertices a, alookup g.vertices b, alookup g.adjacencyList a with
  | some na, some nb, some es =>
      { g with adjacencyList := assocSet g.adjacencyList a (es ++ [⟨nb, na, w, tr⟩]) }
  | _, _, _ => g

/-- Per-search scratch state of one vertex during a dijkstra run:
`key` (`none` is Infinity), `prev` models `_previous` (by vertex value,
legitimate because each value names one node), `inQueue` models the
presence of a heap index. -/
structure DState where
  value : String
  key : Option Nat
  prev : Option String
  inQueue : Bool
deriving Repr, DecidableEq

def dsLookup (sts : List DState) (v : String) : Option DState :=
  sts.find? (fun st => st.value == v)

def dsUpdate (sts : List DState) (v : String) (f : DState → DState) : List DState :=
  sts.map (fun st => if st.value == v then f st else st)

/-- Key comparison with `none` as Infinity. -/
def optKeyLt (a b : Option Nat) : Bool :=
  match a, b with
  | none, _ => false
  | some _, none => true
  | some x, some y => x < y

/-- Extract-min of the modelled priority queue: a queued node of minimal
key (first such in vertex order; the heap's tie order is unspecified by
the spec). -/
def pickMin (sts : List DState) : Option DState :=
  sts.foldl (fun acc st =>
    if st.inQueue then
      match acc with
      | none => some st
      | some b => if optKeyLt st.key b.key then some st else some b
    else acc) none

/-- Relaxation of all outgoing edges of the just-extracted node, in
adjacency-list order: `newCost = smallestNode.key + edge.weight`, and on
improvement set `_previous` and decrease-key (inserting the node into
the queue when it is not there, per the spec's queue contract). -/
def relaxEdges {V : Type} (sts : List DState) (srcValue : String) (srcKey : Nat)
    (edges : List (Edge V)) : List DState :=
  edges.foldl (fun sts e =>
    let newCost := srcKey + e.weight
    match dsLookup sts e.target.value with
    | none => sts
    | some tst =>
        if optKeyLt (some newCost) tst.key then
          dsUpdate sts e.target.value
            (fun st => { st with key := some newCost, prev := some srcValue, inQueue := true })
        else sts) sts

/-- The dijkstra main loop.  Each iteration extracts the minimum; stops
when the finish value is extracted or the queue empties, returning the
final states and the value of the last extracted node (`smallestNode`).
With the natural-number weights produced by `learn`, an extracted node
is never re-queued, so at most one extraction per vertex happens and the
fuel `vertices.length + 1` is never exhausted. -/
def dijkstraLoop {V : Type} (g : Graph V) (finish : String) :
    Nat → List DState → Option String → List DState × Option String
  | 0, sts, last => (sts, last)
  | Nat.succ fuel, sts, last =>
    match pickMin sts with
    | none => (sts, last)
    | some node =>
      let sts := dsUpdate sts node.value (fun st => { st with inQueue := false })
      if node.value == finish then (sts, some node.value)
      else
        let neighbors := (alookup g.adjacencyList node.value).getD []
        let sts := relaxEdges sts node.value (node.key.getD 0) neighbors
        dijkstraLoop g finish fuel sts (some node.value)

/-- Path reconstruction: walk `_previous` links backward from the last
extracted node, picking from the predecessor's adjacency list the first
edge whose target value matches (`Array.prototype.find`), pushing edges
in backward order.  Fuel guards the (unreachable for produced states)
possibility of a cyclic predecessor chain. -/
def backtrack {V : Type} (g : Graph V) (sts : List DState) :
    Nat → String → List (Edge V) → List (Edge V)
  | 0, _, acc => acc
  | Nat.succ fuel, cur, acc =>
    match (dsLookup sts cur).bind (fun st => st.prev) with
    | none => acc
    | some parent =>
      match ((alookup g.adjacencyList parent).getD []).find?
          (fun e => e.target.value == cur) with
      | none => acc
      | some e => backtrack g sts fuel parent (acc ++ [e])

/-- Result object `{path, cost}` of a successful dijkstra run. -/
structure PathResult (V : Type) where
  path : List (Edge V)
  cost : Nat

/-- `WeightedGraph.dijkstra(start, finish)`, returning `none` exactly
when the JS code returns `undefined`.  Mirrors the source: immediate
empty path on `start === finish`; initial state gives the start key 0
and queues only it; after the loop the code checks only
`!smallestNode || !smallestNode._previous` before backtracking from the
last extracted node (whether or not it is `finish`). -/
def dijkstra {V : Type} (g : Graph V) (start finish : String) : Option (PathResult V) :=
  if start = finish then some ⟨[], 0⟩
  else
    let init := g.vertices.map (fun p =>
      if p.1 == start then DState.mk p.1 (some 0) none true
      else DState.mk p.1 none none false)
    let r := dijkstraLoop g finish (g.vertices.length + 1) init none
    match r.2 with
    | none => none
    | some lv =>
      match dsLookup r.1 lv with
      | none => none
      | some lastSt =>
        match lastSt.prev with
        | none => none
        | some _ =>
            some ⟨(backtrack g r.1 (g.vertices.length + 1) lv []).reverse,
                  lastSt.key.getD 0⟩

/-- The `DataTypeConvertor` state: the weighted graph, the destructor
registry (only which types have a destructor registered is observable
through the event traces below, so the table stores the keys), and the
`_known` path cache.  A cache cell holds the stored value of
`_known[from][to]`, which in JS may itself be `undefined` (the no-path
outcome of a search), hence `Option (PathResult V)`. -/
structure Registry (V : Type) where
  graph : Graph V
  destructors : List String
  known : List (String × List (String × Option (PathResult V)))

def emptyRegistry (V : Type) : Registry V := ⟨emptyGraph V, [], []⟩

/-- JavaScript `^` on the small non-negative integers appearing in
`learn` is bitwise XOR on their binary representations. -/
def jsXor (a b : Nat) : Nat := Nat.xor a b

/-- The multiplier actually used by `learn`:
`Math.min(Math.max(costMultiplier, 1), 10 ^ 5)` where `10 ^ 5` is XOR,
i.e. 15. -/
def clampMultiplier (m : Nat) : Nat := min (max m 1) (jsXor 10 5)

/-- The edge weight expression `costPower * 10 ^ 5 + costMultiplier` as
JavaScript parses it: `(costPower * 10) ^ (5 + costMultiplier)`, with
`costPower` already incremented and the multiplier already clamped. -/
def learnWeight (costPower m : Nat) : Nat := jsXor (costPower * 10) (5 + m)

/-- The weight `learn` attaches for declared cost class and multiplier
arguments (the source increments the class and clamps the multiplier
before combining them). -/
def effectiveWeight (costClass m : Nat) : Nat :=
  learnWeight (costClass + 1) (clampMultiplier m)

/-- `DataTypeConvertor.learn`: register both endpoints, push the edge
with the computed weight, and wipe the whole path cache.  The
out-of-range assertions in the source are `$.console.assert` calls,
which only log and never abort, so `learn` proceeds unconditionally. -/
def learn {V : Type} (s : Registry V) (tFrom tTo : String) (tr : V → V)
    (costPower m : Nat) : Registry V :=
  let g := (addVertex s.graph tFrom).1
  let g := (addVertex g tTo).1
  let g := addEdge g tFrom tTo (effectiveWeight costPower m) tr
  { s with graph := g, known := [] }

/-- `DataTypeConvertor.learnDestroy`: register (or replace) the
destructor for a type; paths and cache are untouched. -/
def learnDestroy {V : Type} (s : Registry V) (t : String) : Registry V :=
  { s with destructors := if s.destructors.contains t then s.destructors else s.destructors ++ [t] }

/-- Reading `knownFrom[t]` in JS: a missing key and a key holding
`undefined` are indistinguishable, both read as `undefined`. -/
def jsKnownLookup {V : Type} (knownFrom : List (String × Option (PathResult V)))
    (t : String) : Option (PathResult V) :=
  (alookup knownFrom t).getD none

/-- The `from`-row of the `_known` cache (`{}` when absent). -/
def knownFromOf {V : Type} (s : Registry V) (tFrom : String) :
    List (String × Option (PathResult V)) :=
  (alookup s.known tFrom).getD []

/-- The comparison `bestCost > conversion.cost` with `bestCost`
starting at Infinity (`none`). -/
def jsCostLt (c : Nat) (bestCost : Option Nat) : Bool :=
  match bestCost with
  | none => true
  | some b => c < b

/-- The candidate loop of `getConversionPath` over an array of
destination types: the accumulator is `(bestConvertorPath, bestCost,
selectedType)`; a cached conversion replaces the accumulator exactly
when its cost is strictly below the best cost so far. -/
def selectLoop {V : Type} (knownFrom : List (String × Option (PathResult V))) :
    List String → Option (PathResult V) × Option Nat × String →
      Option (PathResult V) × Option Nat × String
  | [], acc => acc
  | c :: rest, (best, bestCost, sel) =>
    match jsKnownLookup knownFrom c with
    | some conv =>
        if jsCostLt conv.cost bestCost
        then selectLoop knownFrom rest (some conv, some conv.cost, c)
        else selectLoop knownFrom rest (best, bestCost, sel)
    | none => selectLoop knownFrom rest (best, bestCost, sel)

/-- The single or array `to` argument of `getConversionPath`. -/
inductive ToArg where
  | single (t : String)
  | multi (ts : List String)

/-- Outcome of `getConversionPath`: the returned edge list (or
`undefined`), the updated registry, and whether a dijkstra search ran
(the spec's search-invocation counter, instrumentation only). -/
structure GcpResult (V : Type) where
  path : Option (List (Edge V))
  reg : Registry V
  searched : Bool

/-- Shared tail of `getConversionPath`: return the cached path when one
was found, otherwise run dijkstra on the selected type and store the
result (possibly the `undefined` no-path outcome) in the cache. -/
def gcpFinish {V : Type} (s : Registry V) (tFrom : String)
    (kf : List (String × Option (PathResult V)))
    (best : Option (PathResult V)) (selected : String) : GcpResult V :=
  match best with
  | some pr => ⟨some pr.path, s, false⟩
  | none =>
      let r := dijkstra s.graph tFrom selected
      ⟨r.map (fun pr => pr.path),
       { s with known := assocSet s.known tFrom (assocSet kf selected r) }, true⟩

/-- `DataTypeConvertor.getConversionPath(from, to)`.  For an array
argument, `selectedType` starts as `to[0]` (for an empty array JS
coerces the resulting `undefined` key to the string "undefined"; that
corner is excluded by the source's assertion) and the candidate loop
may move both the best path and the selected type to a cheaper cached
candidate; when nothing cached is found the search runs on the selected
type only. -/
def getConversionPath {V : Type} (s : Registry V) (tFrom : String) (toArg : ToArg) :
    GcpResult V :=
  let kf := knownFromOf s tFrom
  match toArg with
  | .single t => gcpFinish s tFrom kf (jsKnownLookup kf t) t
  | .multi ts =>
      let r := selectLoop kf ts (none, none, ts.head?.getD "undefined")
      gcpFinish s tFrom kf r.1 r.2.2

/-- Observable events during path execution: invocation of the i-th
step's transform, and an invocation of a registered destructor by
`destroy` (an unregistered type makes `destroy` a no-op, so no event). -/
inductive ConvEvent where
  | transformCall (i : Nat)
  | destroyCall (t : String)
deriving Repr, DecidableEq

/-- The recursive `step` closure of `DataTypeConvertor.convert`: at
step i apply the edge's transform; a falsy result aborts the whole
conversion with an empty (`none`) resolution; otherwise the origin
type's value is destroyed and execution continues with the produced
value.  The promise plumbing of the source sequences the very same
steps, so the model returns the resolved value directly. -/
def convertSteps {V : Type} (falsy : V → Bool) (dest : List String) :
    List (Edge V) → V → Nat → Option V × List ConvEvent
  | [], x, _ => (some x, [])
  | e :: rest, x, i =>
    let y := e.transform x
    if falsy y then (none, [ConvEvent.transformCall i])
    else
      let destroyEvs :=
        if dest.contains e.origin.value then [ConvEvent.destroyCall e.origin.value] else []
      let r := convertSteps falsy dest rest y (i + 1)
      (r.1, ConvEvent.transformCall i :: (destroyEvs ++ r.2))

/-- Result of `convert`: the resolved value (`none` for the empty
resolution), the event trace, and the registry afterwards. -/
structure ConvertResult (V : Type) where
  value : Option V
  events : List ConvEvent
  reg : Registry V

/-- `DataTypeConvertor.convert(x, from, ...to)`: resolve a path (the
rest parameter always hands `getConversionPath` an array), resolve
empty when none exists, otherwise execute the steps. -/
def convert {V : Type} (falsy : V → Bool) (s : Registry V) (x : V)
    (tFrom : String) (dests : List String) : ConvertResult V :=
  let g := getConversionPath s tFrom (ToArg.multi dests)
  match g.path with
  | none => ⟨none, [], g.reg⟩
  | some p =>
    let r := convertSteps falsy s.destructors p x 0
    ⟨r.1, r.2, g.reg⟩

/-- Universe of JavaScript values seen by `guessType`: array, host/DOM
structural node (with its `nodeName`), plain object optionally exposing
a `getType` capability, `undefined`/`null`, and anything else carrying
the runtime-category tag that the type helper reports for it. -/
inductive JSVal where
  | undef
  | jsNull
  | arr (items : List JSVal)
  | node (nodeName : String)
  | obj (getType : Option String)
  | other (tag : String)
deriving Repr

/-- Modelled from the spec: the OpenSeadragon type helper (the source's
`$.type`, defined outside these sources).  It yields a runtime-category
tag for a value: "dom-node" for a structural/host-environment node,
"object" for a plain object, and the generic category tag otherwise
(spec section 4.3, `guessType` rules b-d). -/
def jsType : JSVal → String
  | .undef => "undefined"
  | .jsNull => "null"
  | .arr _ => "array"
  | .node _ => "dom-node"
  | .obj _ => "object"
  | .other tag => tag

/-- Insertion into a lexicographically sorted list of strings. -/
def insertSorted (s : String) : List String → List String
  | [] => [s]
  | t :: rest => if s ≤ t then s :: t :: rest else t :: insertSorted s rest

/-- `Array.prototype.sort()` on distinct strings: lexicographic sort. -/
def sortStrings : List String → List String
  | [] => []
  | s :: rest => insertSorted s (sortStrings rest)

mutual

/-- `DataTypeConvertor.guessType(x)`.  `Except.error` marks a thrown
exception: on a value whose category tag is "dom-node" the source
evaluates `guessType.nodeName.toLowerCase()` where `guessType` is the
local string variable "dom-node"; a string has no `nodeName` property,
so the member read yields `undefined` and calling `toLowerCase` on it
throws a TypeError. -/
def guessType : JSVal → Except String String
  | .arr items =>
      match guessItems items [] with
      | .error e => .error e
      | .ok types =>
          .ok ("Array [" ++ String.intercalate "," (sortStrings types) ++ "]")
  | x =>
      let t := jsType x
      if t = "dom-node" then
        .error "TypeError: undefined has no method toLowerCase"
      else if t = "object" then
        match x with
        | .obj (some g) => .ok g
        | _ => .ok t
      else .ok t

/-- The element loop of the array branch: skip `undefined`/`null`
items, infer each remaining item's type, and keep the first occurrence
of each distinct type in encounter order. -/
def guessItems : List JSVal → List String → Except String (List String)
  | [], acc => .ok acc
  | item :: rest, acc =>
      match item with
      | .undef => guessItems rest acc
      | .jsNull => guessItems rest acc
      | _ =>
          match guessType item with
          | .error e => .error e
          | .ok t => guessItems rest (if acc.contains t then acc else acc ++ [t])

end

/-! Concrete registries used to evaluate the code at failing inputs. -/

def GraphWF {V : Type} (g : Graph V) : Prop :=
  (∀ v n, alookup g.vertices v = some n → n.value = v) ∧
  (∀ v n, alookup g.vertices v = some n → ∃ es, alookup g.adjacencyList v = some es) ∧
  (∀ k es, alookup g.adjacencyList k = some es → ∀ e ∈ es,
      e.origin.value = k ∧
      alookup g.vertices e.origin.value = some e.origin ∧
      alookup g.vertices e.target.value = some e.target)

/-- One recorded call to `learn` (its arguments). -/
structure LearnCall (V : Type) where
  tFrom : String
  tTo : String
  transform : V → V
  costPower : Nat
  costMultiplier : Nat

/-- A whole sequence of `learn` calls applied in order. -/
def applyLearns {V : Type} (calls : List (LearnCall V)) (s : Registry V) : Registry V :=
  calls.foldl (fun s c => learn s c.tFrom c.tTo c.transform c.costPower c.costMultiplier) s

/-- Order on cached costs with `none` as Infinity (only used to state
properties; the executable comparison is `jsCostLt`). -/
def costLe : Option Nat → Option Nat → Prop
  | _, none => True
  | none, some _ => False
  | some x, some y => x ≤ y

/-- Coupling between `bestConvertorPath` and `bestCost` along the loop:
both are unset, or the cost is the path's cost. -/
def SelInv {V : Type} (b : Option (PathResult V)) (bc : Option Nat) : Prop :=
  (b = none ∧ bc = none) ∨ (∃ p, b = some p ∧ bc = some p.cost)

/-- A registry taught exactly one conversion: `learn("A", "X", id)`
(cost class 0, multiplier 1, so the stored edge weight is 12). -/
def regAX : Registry Unit := learn (emptyRegistry Unit) "A" "X" (fun x => x) 0 1

/-- Edges used by the witness of claim C7. -/
def wEdge1 : Edge Nat := ⟨⟨1, "mid"⟩, ⟨0, "num"⟩, 6, fun n => n + 1⟩

def wEdge2 : Edge Nat := ⟨⟨2, "out"⟩, ⟨1, "mid"⟩, 6, fun _ => 0⟩

def wEdge3 : Edge Nat := ⟨⟨3, "fin"⟩, ⟨2, "out"⟩, 6, fun n => n⟩

/-- A registry whose cache already holds the empty path (cost 2 cell)
for the pair ("A", "B"); used by the witness of claim C5. -/
def regC5 : Registry Unit :=
  { graph := emptyGraph Unit, destructors := [],
    known := [("A", [("B", some ⟨[], 2⟩)])] }

/-- Cached path for ("A", "X") at cost 5, used by the C6 witness. -/
def pathAX : PathResult Unit := ⟨[⟨⟨1, "X"⟩, ⟨0, "A"⟩, 5, fun x => x⟩], 5⟩

/-- Cached path for ("A", "Y") at cost 3, used by the C6 witness. -/
def pathAY : PathResult Unit := ⟨[⟨⟨2, "Y"⟩, ⟨0, "A"⟩, 3, fun x => x⟩], 3⟩

/-- A registry whose cache holds cost 5 for A→X and cost 3 for A→Y,
the spec's multi-candidate example. -/
def regC6 : Registry Unit :=
  { graph := emptyGraph Unit, destructors := [],
    known := [("A", [("X", some pathAX), ("Y", some pathAY)])] }

/-- A registry with a destructor registered for "foo" and an empty
cache, used by the C10 witness. -/
def regC10 : Registry Unit :=
  { graph := emptyGraph Unit, destructors := ["foo"], known := [] }

/-! Association-table lemmas. -/

theorem alookup_assocSet_self {α : Type} (l : List (String × α)) (k : String) (v : α) :
    alookup (assocSet l k v) k = some v := by
  induction l with
  | nil => simp [assocSet, alookup]
  | cons p rest ih =>
    obtain ⟨k', v'⟩ := p
    by_cases h : k' = k
    · subst h; simp [assocSet, alookup]
    · simp [assocSet, alookup, h, ih]

theorem alookup_assocSet_ne {α : Type} (l : List (String × α)) (k k' : String) (v : α)
    (h : k' ≠ k) : alookup (assocSet l k v) k' = alookup l k' := by
  have hne : k ≠ k' := fun hh => h hh.symm
  induction l with
  | nil => simp [assocSet, alookup, hne]
  | cons p rest ih =>
    obtain ⟨k'', v''⟩ := p
    by_cases hk : k'' = k
    · subst hk
      simp [assocSet, alookup, hne]
    · by_cases hk' : k'' = k'
      · subst hk'; simp [assocSet, alookup, hk]
      · simp [assocSet, alookup, hk, hk', ih]

/-! Structural invariant of the conversion graph (claim C9): the vertex
table assigns each identifier a node carrying that identifier, every
vertex owns an adjacency list, and every stored edge lies in the list
keyed by its origin's identifier with both endpoint nodes being exactly
the shared nodes of the vertex table. -/

theorem emptyGraph_wf (V : Type) : GraphWF (emptyGraph V) := by
  refine ⟨?_, ?_, ?_⟩ <;> intro v n h <;> simp [emptyGraph, alookup] at h

theorem addVertex_wf {V : Type} (g : Graph V) (v : String) (hwf : GraphWF g) :
    GraphWF (addVertex g v).1 := by
  obtain ⟨h1, h2, h3⟩ := hwf
  cases hv : alookup g.vertices v with
  | some n0 => simpa [addVertex, hv] using ⟨h1, h2, h3⟩
  | none =>
    refine ⟨?_, ?_, ?_⟩
    · intro w n h
      by_cases hw : w = v
      · subst hw
        rw [show (addVertex g w).1.vertices = assocSet g.vertices w ⟨g.nextId, w⟩ by
              simp [addVertex, hv]] at h
        rw [alookup_assocSet_self] at h
        cases h; rfl
      · rw [show (addVertex g v).1.vertices = assocSet g.vertices v ⟨g.nextId, v⟩ by
              simp [addVertex, hv]] at h
        rw [alookup_assocSet_ne _ _ _ _ hw] at h
        exact h1 w n h
    · intro w n h
      by_cases hw : w = v
      · subst hw
        refine ⟨[], ?_⟩
        rw [show (addVertex g w).1.adjacencyList = assocSet g.adjacencyList w [] by
              simp [addVertex, hv]]
        exact alookup_assocSet_self _ _ _
      · rw [show (addVertex g v).1.vertices = assocSet g.vertices v ⟨g.nextId, v⟩ by
              simp [addVertex, hv]] at h
        rw [alookup_assocSet_ne _ _ _ _ hw] at h
        obtain ⟨es, hes⟩ := h2 w n h
        refine ⟨es, ?_⟩
        rw [show (addVertex g v).1.adjacencyList = assocSet g.adjacencyList v [] by
              simp [addVertex, hv]]
        rw [alookup_assocSet_ne _ _ _ _ hw]
        exact hes
    · intro k es hes e he
      rw [show (addVertex g v).1.adjacencyList = assocSet g.adjacencyList v [] by
            simp [addVertex, hv]] at hes
      by_cases hk : k = v
      · subst hk
        rw [alookup_assocSet_self] at hes
        cases hes
        simp at he
      · rw [alookup_assocSet_ne _ _ _ _ hk] at hes
        obtain ⟨ho, hol, htl⟩ := h3 k es hes e he
        have hov : e.origin.value ≠ v := by
          intro hh; rw [hh] at hol; rw [hol] at hv; cases hv
        have htv : e.target.value ≠ v := by
          intro hh; rw [hh] at htl; rw [htl] at hv; cases hv
        refine ⟨ho, ?_, ?_⟩
        · rw [show (addVertex g v).1.vertices = assocSet g.vertices v ⟨g.nextId, v⟩ by
                simp [addVertex, hv]]
          rw [alookup_assocSet_ne _ _ _ _ hov]
          exact hol
        · rw [show (addVertex g v).1.vertices = assocSet g.vertices v ⟨g.nextId, v⟩ by
                simp [addVertex, hv]]
          rw [alookup_assocSet_ne _ _ _ _ htv]
          exact htl

theorem addEdge_wf {V : Type} (g : Graph V) (a b : String) (w : Nat) (tr : V → V)
    (hwf : GraphWF g) : GraphWF (addEdge g a b w tr) := by
  obtain ⟨h1, h2, h3⟩ := hwf
  cases ha : alookup g.vertices a with
  | none => simpa [addEdge, ha] using ⟨h1, h2, h3⟩
  | some na =>
    cases hb : alookup g.vertices b with
    | none => simpa [addEdge, ha, hb] using ⟨h1, h2, h3⟩
    | some nb =>
      cases hadj : alookup g.adjacencyList a with
      | none => simpa [addEdge, ha, hb, hadj] using ⟨h1, h2, h3⟩
      | some es =>
        have hg : addEdge g a b w tr =
            { g with adjacencyList := assocSet g.adjacencyList a (es ++ [⟨nb, na, w, tr⟩]) } := by
          simp [addEdge, ha, hb, hadj]
        rw [hg]
        refine ⟨h1, ?_, ?_⟩
        · intro v n h
          by_cases hv : v = a
          · subst hv
            exact ⟨es ++ [⟨nb, na, w, tr⟩], alookup_assocSet_self _ _ _⟩
          · obtain ⟨es', hes'⟩ := h2 v n h
            exact ⟨es', by rw [alookup_assocSet_ne _ _ _ _ hv]; exact hes'⟩
        · intro k es' hes' e he
          by_cases hk : k = a
          · subst hk
            rw [alookup_assocSet_self] at hes'
            cases hes'
            rcases List.mem_append.mp he with hmem | hmem
            · exact h3 k es hadj e hmem
            · simp at hmem
              subst hmem
              exact ⟨h1 k na ha, by simp [h1 k na ha, ha], by simp [h1 b nb hb, hb]⟩
          · rw [alookup_assocSet_ne _ _ _ _ hk] at hes'
            exact h3 k es' hes' e he

theorem learn_wf {V : Type} (s : Registry V) (tFrom tTo : String) (tr : V → V)
    (cp m : Nat) (hwf : GraphWF s.graph) : GraphWF (learn s tFrom tTo tr cp m).graph :=
  addEdge_wf _ _ _ _ _ (addVertex_wf _ _ (addVertex_wf _ _ hwf))

theorem applyLearns_wf {V : Type} (calls : List (LearnCall V)) (s : Registry V)
    (hwf : GraphWF s.graph) : GraphWF (applyLearns calls s).graph := by
  induction calls generalizing s with
  | nil => simpa [applyLearns] using hwf
  | cons c rest ih =>
    have : applyLearns (c :: rest) s =
        applyLearns rest (learn s c.tFrom c.tTo c.transform c.costPower c.costMultiplier) := by
      simp [applyLearns]
    rw [this]
    exact ih _ (learn_wf _ _ _ _ _ _ hwf)

/-! Analysis of the candidate-selection loop of `getConversionPath`. -/

theorem costLe_refl (a : Option Nat) : costLe a a := by
  cases a <;> simp [costLe]

theorem costLe_trans {a b c : Option Nat} (h1 : costLe a b) (h2 : costLe b c) :
    costLe a c := by
  cases a <;> cases b <;> cases c <;> simp_all [costLe]
  omega

theorem selectLoop_all_none {V : Type} (kf : List (String × Option (PathResult V)))
    (cs : List String) (acc : Option (PathResult V) × Option Nat × String)
    (h : ∀ c ∈ cs, jsKnownLookup kf c = none) : selectLoop kf cs acc = acc := by
  induction cs with
  | nil => rfl
  | cons c rest ih =>
    obtain ⟨b, bc, sel⟩ := acc
    have hc := h c (List.mem_cons_self c rest)
    simp only [selectLoop, hc]
    exact ih (fun c' hc' => h c' (List.mem_cons_of_mem _ hc'))

theorem selectLoop_spec {V : Type} (kf : List (String × Option (PathResult V))) :
    ∀ (cs : List String) (b : Option (PathResult V)) (bc : Option Nat) (sel : String),
      SelInv b bc →
      SelInv (selectLoop kf cs (b, bc, sel)).1 (selectLoop kf cs (b, bc, sel)).2.1 ∧
      costLe (selectLoop kf cs (b, bc, sel)).2.1 bc ∧
      (∀ c pr, c ∈ cs → jsKnownLookup kf c = some pr →
        costLe (selectLoop kf cs (b, bc, sel)).2.1 (some pr.cost)) ∧
      ((selectLoop kf cs (b, bc, sel)).1 = b ∧ (selectLoop kf cs (b, bc, sel)).2.1 = bc ∨
        ∃ c pr, c ∈ cs ∧ jsKnownLookup kf c = some pr ∧
          (selectLoop kf cs (b, bc, sel)).1 = some pr ∧
          (selectLoop kf cs (b, bc, sel)).2.1 = some pr.cost) := by
  intro cs
  induction cs with
  | nil =>
    intro b bc sel hinv
    refine ⟨hinv, costLe_refl bc, ?_, Or.inl ⟨rfl, rfl⟩⟩
    intro c pr hc
    simp at hc
  | cons c rest ih =>
    intro b bc sel hinv
    cases hl : jsKnownLookup kf c with
    | none =>
      have heq : selectLoop kf (c :: rest) (b, bc, sel) = selectLoop kf rest (b, bc, sel) := by
        simp [selectLoop, hl]
      rw [heq]
      obtain ⟨i1, i2, i3, i4⟩ := ih b bc sel hinv
      refine ⟨i1, i2, ?_, ?_⟩
      · intro c' pr hc' hpr
        rcases List.mem_cons.mp hc' with rfl | hmem
        · rw [hl] at hpr; cases hpr
        · exact i3 c' pr hmem hpr
      · rcases i4 with h | ⟨c', pr, hmem, h⟩
        · exact Or.inl h
        · exact Or.inr ⟨c', pr, List.mem_cons_of_mem _ hmem, h⟩
    | some conv =>
      cases hlt : jsCostLt conv.cost bc with
      | true =>
        have heq : selectLoop kf (c :: rest) (b, bc, sel) =
            selectLoop kf rest (some conv, some conv.cost, c) := by
          simp [selectLoop, hl, hlt]
        rw [heq]
        obtain ⟨i1, i2, i3, i4⟩ := ih (some conv) (some conv.cost) c
          (Or.inr ⟨conv, rfl, rfl⟩)
        have hstep : costLe (some conv.cost) bc := by
          cases bc with
          | none => trivial
          | some bcv =>
            simp [jsCostLt] at hlt
            simpa [costLe] using Nat.le_of_lt hlt
        refine ⟨i1, costLe_trans i2 hstep, ?_, ?_⟩
        · intro c' pr hc' hpr
          rcases List.mem_cons.mp hc' with rfl | hmem
          · rw [hl] at hpr
            cases hpr
            exact i2
          · exact i3 c' pr hmem hpr
        · rcases i4 with ⟨h1, h2⟩ | ⟨c', pr, hmem, h⟩
          · exact Or.inr ⟨c, conv, List.mem_cons_self c rest, hl, h1, h2⟩
          · exact Or.inr ⟨c', pr, List.mem_cons_of_mem _ hmem, h⟩
      | false =>
        have heq : selectLoop kf (c :: rest) (b, bc, sel) = selectLoop kf rest (b, bc, sel) := by
          simp [selectLoop, hl, hlt]
        rw [heq]
        obtain ⟨i1, i2, i3, i4⟩ := ih b bc sel hinv
        have hge : costLe bc (some conv.cost) := by
          cases bc with
          | none => simp [jsCostLt] at hlt
          | some bcv =>
            simp [jsCostLt] at hlt
            simpa [costLe] using hlt
        refine ⟨i1, i2, ?_, ?_⟩
        · intro c' pr hc' hpr
          rcases List.mem_cons.mp hc' with rfl | hmem
          · rw [hl] at hpr
            cases hpr
            exact costLe_trans i2 hge
          · exact i3 c' pr hmem hpr
        · rcases i4 with h | ⟨c', pr, hmem, h⟩
          · exact Or.inl h
          · exact Or.inr ⟨c', pr, List.mem_cons_of_mem _ hmem, h⟩

/-- Claim C1: the claim asserts that every non-empty path returned by
`dijkstra(A, B)` ends at `B`.  It fails on the code: on the registry
knowing only the edge A→X, `dijkstra("A", "B")` for the never-registered
destination "B" returns the non-empty path [A→X] (cost 12) whose final
target is "X", not "B" — the post-loop test checks only `_previous` of
the last extracted node, not that the destination was reached. -/
theorem claim_C1_path_endpoint_violated :
    ((dijkstra regAX.graph "A" "B").map
        (fun pr => (pr.path.map (fun e => (e.origin.value, e.target.value)), pr.cost)))
      = some ([("A", "X")], 12) ∧ ("X" : String) ≠ "B" :=
  ⟨rfl, by decide⟩

/-- Claim C2: the claim asserts that an unregistered or unreachable
destination makes `dijkstra` return `undefined` and makes `convert`
resolve empty.  It fails on the code at the same input as C1: the
search returns a (wrong-endpoint) path object instead of `undefined`,
and `convert` executes that path and resolves to a value rather than
to the empty result. -/
theorem claim_C2_no_path_not_detected :
    (dijkstra regAX.graph "A" "B").isSome = true ∧
    (convert (fun _ => false) regAX () "A" ["B"]).value = some () :=
  ⟨rfl, rfl⟩

/-- Claim C3: the claim asserts that any edge of a strictly higher cost
class outweighs every edge of a strictly lower class (multipliers 1 to
100000).  It fails on the code: `costPower * 10 ^ 5 + costMultiplier`
is XOR, so class 0 with multiplier 15 weighs 30 while class 1 with
multiplier 1 weighs only 18. -/
theorem claim_C3_class_ordering_violated :
    effectiveWeight 0 15 = 30 ∧ effectiveWeight 1 1 = 18 ∧
    effectiveWeight 1 1 < effectiveWeight 0 15 := by decide

/-- Claim C4: the claim asserts the multiplier is clamped into
[1, 100000] with in-range values kept unchanged.  It fails on the code:
the upper clamp bound `10 ^ 5` is XOR, i.e. 15, so the in-range
multiplier 100 is replaced by 15 (and 100000 as well). -/
theorem claim_C4_clamp_bound_wrong :
    clampMultiplier 100 = 15 ∧ clampMultiplier 100000 = 15 ∧ clampMultiplier 100 ≠ 100 := by
  decide

/-- Claim C8: the claim asserts `guessType` never throws and maps a
host structural node to its lowercase kind tag.  It fails on the code:
for a dom-node the source evaluates `guessType.nodeName.toLowerCase()`
on the local string "dom-node" instead of on the input `x`, so the
member read yields `undefined` and the call throws a TypeError. -/
theorem claim_C8_guessType_throws_on_dom_node :
    guessType (JSVal.node "CANVAS")
      = Except.error "TypeError: undefined has no method toLowerCase" ∧
    guessType (JSVal.arr [JSVal.other "image", JSVal.jsNull, JSVal.other "image"])
      = Except.ok "Array [image]" :=
  ⟨rfl, rfl⟩

/-- Claim C7: on a resolved three-edge path whose second transform
yields a falsy value, execution invokes transform 0, fires the
registered destructor of the original value's type, invokes transform 1,
then aborts: the third transform never runs, nothing is rolled back,
and the conversion resolves empty. -/
theorem claim_C7_mid_path_failure {V : Type} (falsy : V → Bool) (dest : List String)
    (e1 e2 e3 : Edge V) (x : V)
    (h1 : falsy (e1.transform x) = false)
    (h2 : falsy (e2.transform (e1.transform x)) = true)
    (hd : dest.contains e1.origin.value = true) :
    convertSteps falsy dest [e1, e2, e3] x 0 =
      (none, [ConvEvent.transformCall 0, ConvEvent.destroyCall e1.origin.value,
              ConvEvent.transformCall 1]) := by
  have hd' : e1.origin.value ∈ dest := by simpa using hd
  simp [convertSteps, h1, h2, hd']

/-- Witness for claim C7 at a concrete three-edge path over natural
numbers with 0 as the falsy value: the second transform returns 0. -/
theorem claim_C7_witness :
    (fun n : Nat => n == 0) (wEdge1.transform 4) = false ∧
    (fun n : Nat => n == 0) (wEdge2.transform (wEdge1.transform 4)) = true ∧
    List.contains ["num"] wEdge1.origin.value = true ∧
    convertSteps (fun n : Nat => n == 0) ["num"] [wEdge1, wEdge2, wEdge3] 4 0 =
      (none, [ConvEvent.transformCall 0, ConvEvent.destroyCall "num",
              ConvEvent.transformCall 1]) :=
  ⟨rfl, rfl, rfl, claim_C7_mid_path_failure _ _ _ _ _ _ rfl rfl rfl⟩

/-- Claim C9: after any sequence of `learn` calls on a fresh registry
(the constructor's built-in `learn` calls included), the graph is
internally consistent: vertex identifiers map to nodes carrying that
identifier, every vertex owns an adjacency list, and every stored edge
sits under its origin's identifier with both endpoints being exactly
the unique shared nodes of the vertex table. -/
theorem claim_C9_graph_invariant {V : Type} (calls : List (LearnCall V)) :
    GraphWF (applyLearns calls (emptyRegistry V)).graph :=
  applyLearns_wf calls _ (emptyGraph_wf V)

/-! Unfolding equations of `getConversionPath`. -/

theorem gcp_single_eq {V : Type} (s : Registry V) (tFrom t : String) :
    getConversionPath s tFrom (ToArg.single t)
      = gcpFinish s tFrom (knownFromOf s tFrom)
          (jsKnownLookup (knownFromOf s tFrom) t) t := rfl

theorem gcp_multi_eq {V : Type} (s : Registry V) (tFrom : String) (ts : List String) :
    getConversionPath s tFrom (ToArg.multi ts)
      = gcpFinish s tFrom (knownFromOf s tFrom)
          (selectLoop (knownFromOf s tFrom) ts (none, none, ts.head?.getD "undefined")).1
          (selectLoop (knownFromOf s tFrom) ts (none, none, ts.head?.getD "undefined")).2.2 := rfl

theorem gcpFinish_some {V : Type} (s : Registry V) (tFrom : String)
    (kf : List (String × Option (PathResult V))) (pr : PathResult V) (t : String) :
    gcpFinish s tFrom kf (some pr) t = ⟨some pr.path, s, false⟩ := rfl

theorem gcpFinish_none {V : Type} (s : Registry V) (tFrom : String)
    (kf : List (String × Option (PathResult V))) (t : String) :
    gcpFinish s tFrom kf none t
      = ⟨(dijkstra s.graph tFrom t).map (fun pr => pr.path),
         { s with known :=
             assocSet s.known tFrom (assocSet kf t (dijkstra s.graph tFrom t)) }, true⟩ := rfl

/-- Claim C5 (amended): two `getConversionPath(A, B)` calls with no
`learn` in between return equal results, and when the first call found
a path, the second is answered from the cache with no new search.  A
no-path outcome, however, is stored as `undefined` — indistinguishable
from an absent entry on every later read — so in that case the second
call runs the search again (and still returns the same no-path
result). -/
theorem claim_C5_cache_consistency {V : Type} (s : Registry V) (tFrom t : String) :
    (getConversionPath (getConversionPath s tFrom (ToArg.single t)).reg
        tFrom (ToArg.single t)).path
      = (getConversionPath s tFrom (ToArg.single t)).path ∧
    (∀ p, (getConversionPath s tFrom (ToArg.single t)).path = some p →
      (getConversionPath (getConversionPath s tFrom (ToArg.single t)).reg
          tFrom (ToArg.single t)).searched = false) := by
  cases h : jsKnownLookup (knownFromOf s tFrom) t with
  | some pr =>
    have h1 : getConversionPath s tFrom (ToArg.single t) = ⟨some pr.path, s, false⟩ := by
      rw [gcp_single_eq, h, gcpFinish_some]
    rw [h1]
    have h2 : getConversionPath s tFrom (ToArg.single t) = ⟨some pr.path, s, false⟩ := h1
    exact ⟨by rw [h2], fun p hp => by rw [h2]⟩
  | none =>
    have h1 : getConversionPath s tFrom (ToArg.single t)
        = gcpFinish s tFrom (knownFromOf s tFrom) none t := by
      rw [gcp_single_eq, h]
    have hreg : (getConversionPath s tFrom (ToArg.single t)).reg.known
        = assocSet s.known tFrom
            (assocSet (knownFromOf s tFrom) t (dijkstra s.graph tFrom t)) := by
      rw [h1, gcpFinish_none]
    have hgr : (getConversionPath s tFrom (ToArg.single t)).reg.graph = s.graph := by
      rw [h1, gcpFinish_none]
    have hpath : (getConversionPath s tFrom (ToArg.single t)).path
        = (dijkstra s.graph tFrom t).map (fun pr => pr.path) := by
      rw [h1, gcpFinish_none]
    have hkf2 : knownFromOf (getConversionPath s tFrom (ToArg.single t)).reg tFrom
        = assocSet (knownFromOf s tFrom) t (dijkstra s.graph tFrom t) := by
      simp [knownFromOf, hreg, alookup_assocSet_self]
    have hl2 : jsKnownLookup
        (knownFromOf (getConversionPath s tFrom (ToArg.single t)).reg tFrom) t
        = dijkstra s.graph tFrom t := by
      rw [hkf2]
      simp [jsKnownLookup, alookup_assocSet_self]
    cases hd : dijkstra s.graph tFrom t with
    | none =>
      have h2 : getConversionPath (getConversionPath s tFrom (ToArg.single t)).reg
            tFrom (ToArg.single t)
          = gcpFinish (getConversionPath s tFrom (ToArg.single t)).reg tFrom
              (knownFromOf (getConversionPath s tFrom (ToArg.single t)).reg tFrom) none t := by
        rw [gcp_single_eq, hl2, hd]
      constructor
      · rw [h2, gcpFinish_none, hpath]
        simp [hgr, hd]
      · intro p hp
        rw [hpath] at hp
        simp [hd] at hp
    | some pr =>
      have h2 : getConversionPath (getConversionPath s tFrom (ToArg.single t)).reg
            tFrom (ToArg.single t)
          = gcpFinish (getConversionPath s tFrom (ToArg.single t)).reg tFrom
              (knownFromOf (getConversionPath s tFrom (ToArg.single t)).reg tFrom)
              (some pr) t := by
        rw [gcp_single_eq, hl2, hd]
      constructor
      · rw [h2, gcpFinish_some, hpath]
        simp [hd]
      · intro p hp
        rw [h2, gcpFinish_some]

/-- Counterexample to claim C5 as stated: on the empty registry the
first `getConversionPath("P", "Q")` finds no path and stores the
`undefined` sentinel, yet the second identical call still runs a new
shortest-path search (its search flag is set), because the stored
sentinel reads back exactly like an absent entry. -/
theorem claim_C5_counterexample :
    (getConversionPath (emptyRegistry Unit) "P" (ToArg.single "Q")).path = none ∧
    (getConversionPath (getConversionPath (emptyRegistry Unit) "P" (ToArg.single "Q")).reg
        "P" (ToArg.single "Q")).searched = true :=
  ⟨rfl, rfl⟩

/-- Witness for claim C5 at a registry whose cache already holds a path
for ("A", "B"): both calls return it and the second does not search. -/
theorem claim_C5_witness :
    (getConversionPath (getConversionPath regC5 "A" (ToArg.single "B")).reg
        "A" (ToArg.single "B")).path
      = (getConversionPath regC5 "A" (ToArg.single "B")).path ∧
    (getConversionPath (getConversionPath regC5 "A" (ToArg.single "B")).reg
        "A" (ToArg.single "B")).searched = false :=
  ⟨(claim_C5_cache_consistency regC5 "A" "B").1,
   (claim_C5_cache_consistency regC5 "A" "B").2 [] rfl⟩

theorem gcp_multi_cons_eq {V : Type} (s : Registry V) (tFrom t : String) (ts : List String) :
    getConversionPath s tFrom (ToArg.multi (t :: ts))
      = gcpFinish s tFrom (knownFromOf s tFrom)
          (selectLoop (knownFromOf s tFrom) (t :: ts) (none, none, t)).1
          (selectLoop (knownFromOf s tFrom) (t :: ts) (none, none, t)).2.2 := rfl

/-- Claim C6: given a non-empty candidate destination list,
`getConversionPath` commits to the first candidate and searches only it
when no candidate has a cached conversion; and as soon as some
candidate is cached, no search runs and the returned path is a cached
one of minimal cached cost. -/
theorem claim_C6_multi_candidate_selection {V : Type} (s : Registry V)
    (tFrom t : String) (ts : List String) :
    ((∀ c ∈ t :: ts, jsKnownLookup (knownFromOf s tFrom) c = none) →
      (getConversionPath s tFrom (ToArg.multi (t :: ts))).path
          = (dijkstra s.graph tFrom t).map (fun pr => pr.path) ∧
      (getConversionPath s tFrom (ToArg.multi (t :: ts))).searched = true) ∧
    (∀ c pr, c ∈ t :: ts → jsKnownLookup (knownFromOf s tFrom) c = some pr →
      (getConversionPath s tFrom (ToArg.multi (t :: ts))).searched = false ∧
      ∃ c' pr', c' ∈ t :: ts ∧ jsKnownLookup (knownFromOf s tFrom) c' = some pr' ∧
        (getConversionPath s tFrom (ToArg.multi (t :: ts))).path = some pr'.path ∧
        ∀ c'' pr'', c'' ∈ t :: ts → jsKnownLookup (knownFromOf s tFrom) c'' = some pr'' →
          pr'.cost ≤ pr''.cost) := by
  constructor
  · intro hall
    have hloop := selectLoop_all_none (knownFromOf s tFrom) (t :: ts) (none, none, t) hall
    have heq : getConversionPath s tFrom (ToArg.multi (t :: ts))
        = gcpFinish s tFrom (knownFromOf s tFrom) none t := by
      rw [gcp_multi_cons_eq, hloop]
    rw [heq, gcpFinish_none]
    exact ⟨rfl, rfl⟩
  · intro c pr hc hpr
    obtain ⟨i1, i2, i3, i4⟩ :=
      selectLoop_spec (knownFromOf s tFrom) (t :: ts) none none t (Or.inl ⟨rfl, rfl⟩)
    have hcost := i3 c pr hc hpr
    rcases i1 with ⟨hb, hbc⟩ | ⟨p, hb, hbc⟩
    · rw [hbc] at hcost
      exact absurd hcost (by simp [costLe])
    · rcases i4 with ⟨hb', _⟩ | ⟨c', pr', hmem, hlook, hb', hbc'⟩
      · rw [hb] at hb'
        cases hb'
      · have heq : getConversionPath s tFrom (ToArg.multi (t :: ts))
            = gcpFinish s tFrom (knownFromOf s tFrom) (some pr')
                (selectLoop (knownFromOf s tFrom) (t :: ts) (none, none, t)).2.2 := by
          rw [gcp_multi_cons_eq, hb']
        refine ⟨?_, c', pr', hmem, hlook, ?_, ?_⟩
        · rw [heq, gcpFinish_some]
        · rw [heq, gcpFinish_some]
        · intro c'' pr'' hmem'' hlook''
          have := i3 c'' pr'' hmem'' hlook''
          rw [hbc'] at this
          simpa [costLe] using this

/-- Witness for claim C6 at the spec's example: with cached costs
A→X = 5 and A→Y = 3, `getConversionPath("A", ["X", "Y"])` does not
search and resolves to the Y path. -/
theorem claim_C6_witness :
    (getConversionPath regC6 "A" (ToArg.multi ["X", "Y"])).searched = false ∧
    (getConversionPath regC6 "A" (ToArg.multi ["X", "Y"])).path = some pathAY.path :=
  ⟨((claim_C6_multi_candidate_selection regC6 "A" "X" ["Y"]).2 "X" pathAX
      (List.mem_cons_self _ _) rfl).1, rfl⟩

/-- Claim C10: converting a value to its own type resolves to exactly
that value through the empty path, with no transform invocation and no
destructor invocation (destructor registered for the type or not), and
leaves graph and destructor registry untouched.  The hypothesis states
the spec's cache-consistency invariant for the (T, T) cell: when a
cached conversion for T→T is present it is a stored result of a T→T
search, which is always the empty path of cost 0. -/
theorem claim_C10_identity_conversion {V : Type} (falsy : V → Bool) (s : Registry V)
    (x : V) (T : String)
    (hc : ∀ pr, jsKnownLookup (knownFromOf s T) T = some pr → pr = ⟨[], 0⟩) :
    (convert falsy s x T [T]).value = some x ∧
    (convert falsy s x T [T]).events = [] ∧
    (convert falsy s x T [T]).reg.graph = s.graph ∧
    (convert falsy s x T [T]).reg.destructors = s.destructors := by
  have hd : dijkstra s.graph T T = some ⟨[], 0⟩ := by simp [dijkstra]
  cases hl : jsKnownLookup (knownFromOf s T) T with
  | none =>
    have hloop : selectLoop (knownFromOf s T) [T] (none, none, T) = (none, none, T) := by
      simp [selectLoop, hl]
    have hgcp : getConversionPath s T (ToArg.multi [T])
        = gcpFinish s T (knownFromOf s T) none T := by
      rw [gcp_multi_cons_eq, hloop]
    simp [convert, hgcp, gcpFinish_none, hd, convertSteps]
  | some pr =>
    have hpr := hc pr hl
    subst hpr
    have hloop : selectLoop (knownFromOf s T) [T] (none, none, T)
        = (some ⟨[], 0⟩, some 0, T) := by
      simp [selectLoop, hl, jsCostLt]
    have hgcp : getConversionPath s T (ToArg.multi [T])
        = gcpFinish s T (knownFromOf s T) (some ⟨[], 0⟩) T := by
      rw [gcp_multi_cons_eq, hloop]
    simp [convert, hgcp, gcpFinish_some, convertSteps]

/-- Witness for claim C10: identity conversion of () to its own type
"foo" (destructor registered) resolves to (), with an empty event trace
and untouched graph and destructor registry. -/
theorem claim_C10_witness :
    (convert (fun _ => false) regC10 () "foo" ["foo"]).value = some () ∧
    (convert (fun _ => false) regC10 () "foo" ["foo"]).events = [] ∧
    (convert (fun _ => false) regC10 () "foo" ["foo"]).reg.graph = regC10.graph ∧
    (convert (fun _ => false) regC10 () "foo" ["foo"]).reg.destructors = regC10.destructors :=
  claim_C10_identity_conversion (fun _ => false) regC10 () "foo"
    (by intro pr h; simp [jsKnownLookup, knownFromOf, regC10, alookup] at h)

end OSDConvertor
